import Mathlib

/-!
Verification of the statement-extraction tool (`extract_cc_data.py`).

The development shallowly embeds the program over `List Char`: strings are
lists of characters, the regular expressions `^[A-Z][a-z]{2}\s+\d{1,2}$`
(`is_date`) and `^\$\d{1,3}(,\d{3})*\.\d{2}$` (`is_amount`) become
executable matchers, `datetime.strptime`/`strftime` on the fixed formats
`%b %d %Y` and `%Y-%m-%d` become explicit month/day parsing and ISO
rendering, `float` parsing becomes exact decimal parsing into `ℚ`, the
`defaultdict(list)` keyed by year becomes an insertion-ordered association
list, and Python's stable `sorted` becomes `List.insertionSort`.
All definitions are executable so that concrete runs can be checked with
`decide`.
-/

namespace CCData

/-- Character list of a string literal (strings in the program are
manipulated as `List Char`). -/
def str (s : String) : List Char := s.toList

/-- Whitespace characters recognised by Python's `str.split()` and by the
`\s` regex class (ASCII fragment: space, tab, newline, carriage return,
vertical tab, form feed). -/
def isPySpace (c : Char) : Bool :=
  c = ' ' || c = '\t' || c = '\n' || c = '\r' || c = '\x0b' || c = '\x0c'

/-- Regex class `[A-Z]`. -/
def isUpperCh (c : Char) : Bool := 'A' ≤ c && c ≤ 'Z'

/-- Regex class `[a-z]`. -/
def isLowerCh (c : Char) : Bool := 'a' ≤ c && c ≤ 'z'

/-- Regex class `\d` (ASCII fragment). -/
def isDigitCh (c : Char) : Bool := '0' ≤ c && c ≤ '9'

/-- Helper for `splitWs`: accumulates the current word (reversed). -/
def splitWsAux : List Char → List Char → List (List Char)
  | [], acc => if acc.isEmpty then [] else [acc.reverse]
  | c :: cs, acc =>
    if isPySpace c then
      if acc.isEmpty then splitWsAux cs [] else acc.reverse :: splitWsAux cs []
    else splitWsAux cs (c :: acc)

/-- Python `line.split()`: split on runs of whitespace, dropping empty
pieces.  (`parts = line.split()`, line 71 of the source.) -/
def splitWs (s : List Char) : List (List Char) := splitWsAux s []

/-- Matcher for the regex fragment `\d{1,2}$`: the whole remaining input is
one or two digits. -/
def digits12 : List Char → Bool
  | [d] => isDigitCh d
  | [d1, d2] => isDigitCh d1 && isDigitCh d2
  | _ => false

/-- Matcher for the regex fragment `\s*\d{1,2}$`. -/
def spacesDigits12 : List Char → Bool
  | [] => false
  | c :: rest => if isPySpace c then spacesDigits12 rest else digits12 (c :: rest)

/-- Matcher for the full regex `[A-Z][a-z]{2}\s+\d{1,2}` anchored at both
ends. -/
def dateCore : List Char → Bool
  | u :: l1 :: l2 :: c :: rest =>
    isUpperCh u && isLowerCh l1 && isLowerCh l2 && isPySpace c && spacesDigits12 rest
  | _ => false

/-- Python `re`'s `$` anchor matches at the end of the string or just
before a newline at the end of the string; `reDollar core` matches
`^core$` with that semantics. -/
def reDollar (core : List Char → Bool) (s : List Char) : Bool :=
  core s || (s.getLast? == some '\n' && core s.dropLast)

/-- Embeds `is_date` (source lines 21-24): `re.match` of
`^[A-Z][a-z]{2}\s+\d{1,2}$` against the text. -/
def is_date (s : List Char) : Bool := reDollar dateCore s

/-- Matcher for the regex fragment `(,\d{3})*\.\d{2}$`: comma-separated
three-digit groups followed by a dot and exactly two digits, consuming the
whole remaining input.  The regex is deterministic here because a digit can
never match `,` or `.`. -/
def groupsTail : List Char → Bool
  | ',' :: d1 :: d2 :: d3 :: rest =>
    isDigitCh d1 && isDigitCh d2 && isDigitCh d3 && groupsTail rest
  | '.' :: d1 :: d2 :: rest => isDigitCh d1 && isDigitCh d2 && rest.isEmpty
  | _ => false

/-- Matcher for the full regex `\$\d{1,3}(,\d{3})*\.\d{2}` anchored at both
ends: a dollar sign, a leading group of one to three digits (the maximal
digit run, since the next pattern character is `,` or `.`), then
`groupsTail`. -/
def amountCore : List Char → Bool
  | c :: rest =>
    decide (c = '$')
      && decide (1 ≤ (rest.takeWhile isDigitCh).length ∧ (rest.takeWhile isDigitCh).length ≤ 3)
      && groupsTail (rest.dropWhile isDigitCh)
  | [] => false

/-- Embeds `is_amount` (source lines 26-29): `re.match` of
`^\$\d{1,3}(,\d{3})*\.\d{2}$` against the text. -/
def is_amount (s : List Char) : Bool := reDollar amountCore s

/-- Numeric value of a digit string (most significant first). -/
def digitsToNat (ds : List Char) : Nat :=
  ds.foldl (fun a c => 10 * a + (c.toNat - 48)) 0

/-- Embeds Python `float` on an unsigned decimal numeral
(`digits`, `digits.digits`, `.digits` or `digits.`), at exact rational
precision.  Scientific notation, `inf`/`nan` and underscores are not
reachable from the program's inputs and are not modelled. -/
def parseUnsigned (s : List Char) : Option ℚ :=
  match s.dropWhile isDigitCh with
  | [] => if (s.takeWhile isDigitCh).isEmpty then none else some (digitsToNat (s.takeWhile isDigitCh))
  | '.' :: fp =>
    if fp.all isDigitCh && !((s.takeWhile isDigitCh).isEmpty && fp.isEmpty) then
      some ((digitsToNat (s.takeWhile isDigitCh) : ℚ) + (digitsToNat fp : ℚ) / (10 : ℚ) ^ fp.length)
    else none
  | _ => none

/-- Embeds Python `float` including an optional leading sign. -/
def parseFloat : List Char → Option ℚ
  | c :: rest =>
    if c = '-' then (parseUnsigned rest).map (fun q => -q)
    else if c = '+' then parseUnsigned rest
    else parseUnsigned (c :: rest)
  | [] => parseUnsigned []

/-- Embeds `parse_amount` (source lines 16-19):
`amount_str.replace('$', '').replace(',', '')` followed by `float(...)`.
Produces `none` where the Python code would raise `ValueError`. -/
def parse_amount (s : List Char) : Option ℚ :=
  parseFloat (s.filter (fun c => !(c = '$' || c = ',')))

/-- The twelve lowercase month abbreviations, in month order, as used by
`strptime`'s `%b` directive (C locale). -/
def monthAbbrevs : List (List Char) :=
  [str "jan", str "feb", str "mar", str "apr", str "may", str "jun",
   str "jul", str "aug", str "sep", str "oct", str "nov", str "dec"]

/-- ASCII lowercasing, as applied by `strptime`'s case-insensitive match. -/
def lowerCh (c : Char) : Char :=
  if isUpperCh c then Char.ofNat (c.toNat + 32) else c

/-- Embeds the `%b` directive of `strptime` on a whitespace-free token:
the token must be, case-insensitively, one of the twelve three-letter
abbreviations; yields the month number 1..12. -/
def monthOfToken (t : List Char) : Option Nat :=
  match monthAbbrevs.findIdx? (fun m => m == t.map lowerCh) with
  | some i => some (i + 1)
  | none => none

/-- Embeds the `%d` directive of `strptime` on a whitespace-free token:
the regex `3[01]|[12]\d|0[1-9]|[1-9]| [1-9]` must consume the whole token,
which for a whitespace-free token means one or two digits with value
between 1 and 31. -/
def dayOfToken (t : List Char) : Option Nat :=
  if digits12 t && decide (1 ≤ digitsToNat t) && decide (digitsToNat t ≤ 31) then
    some (digitsToNat t)
  else none

/-- Gregorian leap-year rule used by `datetime`. -/
def isLeap (y : Nat) : Bool := (y % 4 = 0 && y % 100 ≠ 0) || y % 400 = 0

/-- Number of days of month `m` in year `y`, as validated by
`datetime.__new__`. -/
def daysInMonth (y m : Nat) : Nat :=
  if m = 2 then (if isLeap y then 29 else 28)
  else if m = 4 || m = 6 || m = 9 || m = 11 then 30
  else 31

/-- Embeds `datetime.strptime(month_token + ' ' + day_token + ' ' + year,
'%b %d %Y')` for whitespace-free tokens: the month abbreviation and the
day token parse syntactically, and the day is in range for the month
(otherwise `datetime` raises `ValueError`).  Returns the month and day. -/
def parseDatePair (tm td : List Char) (y : Nat) : Option (Nat × Nat) :=
  match monthOfToken tm, dayOfToken td with
  | some m, some d => if d ≤ daysInMonth y m then some (m, d) else none
  | _, _ => none

/-- Decimal digit string of `n`. -/
def natDigits (n : Nat) : List Char := Nat.toDigits 10 n

/-- Zero-padded decimal rendering of width `w`, as produced by
`strftime`'s `%Y`, `%m`, `%d`. -/
def pad (w n : Nat) : List Char :=
  List.replicate (w - (natDigits n).length) '0' ++ natDigits n

/-- Embeds `strftime('%Y-%m-%d')`: ISO 8601 rendering of a date. -/
def isoDate (y m d : Nat) : List Char :=
  pad 4 y ++ '-' :: (pad 2 m ++ '-' :: pad 2 d)

/-- A transaction record, as assembled on source lines 85-90.  The two
dates are kept in their re-emitted ISO string form; the amount is the
parsed decimal value. -/
structure Transaction where
  transDate : List Char
  postDate : List Char
  description : List Char
  amount : ℚ
deriving DecidableEq, Repr

/-- Embeds the classification test on source line 73:
`len(parts) >= 4 and is_date(parts[0] + ' ' + parts[1]) and
is_amount(parts[-1])`. -/
def classify (parts : List (List Char)) : Bool :=
  decide (4 ≤ parts.length)
    && is_date (parts.getD 0 [] ++ ' ' :: parts.getD 1 [])
    && is_amount (parts.getLastD [])

/-- Python `' '.join`. -/
def joinSpace (ts : List (List Char)) : List Char := List.intercalate [' '] ts

/-- Embeds the per-line body of `parse_statement` (source lines 73-95):
classify the token list; on success parse both date pairs with the
document year and the trailing amount, and build the record with the
middle tokens `parts[4:-1]` joined as the description.  `none` models the
`continue` taken on exclusion or on a caught `ValueError`. -/
def parseLine (y : Nat) (parts : List (List Char)) : Option Transaction :=
  if classify parts then
    match parseDatePair (parts.getD 0 []) (parts.getD 1 []) y,
          parseDatePair (parts.getD 2 []) (parts.getD 3 []) y,
          parse_amount (parts.getLastD []) with
    | some (m1, d1), some (m2, d2), some a =>
      some ⟨isoDate y m1 d1, isoDate y m2 d2, joinSpace ((parts.drop 4).dropLast), a⟩
    | _, _, _ => none
  else none

/-- Embeds the per-page loop of `parse_statement`: each nonblank line is
split and processed; lines producing no record are skipped.  (A blank line
is `continue`d explicitly in the source; its token list is empty, so it is
equally skipped here.) -/
def parsePage (y : Nat) (lines : List (List Char)) : List Transaction :=
  lines.filterMap (fun l => parseLine y (splitWs l))

/-- Embeds `parse_statement` over the pages of one document.  A page is
`none` when `extract_text` raises at that point; the exception propagates
to the document-level handler, which returns `None` (source lines 97-99),
discarding every record already collected from earlier pages. -/
def parseStatementPages (y : Nat) : List (Option (List (List Char))) → Option (List Transaction)
  | [] => some []
  | none :: _ => none
  | some pg :: rest => (parseStatementPages y rest).map (fun ts => parsePage y pg ++ ts)

/-- The aggregator `transactions_by_year`: a `defaultdict(list)` keyed by
the 4-character year label, embedded as an insertion-ordered association
list with unique keys. -/
abbrev Agg := List (List Char × List Transaction)

/-- Dictionary lookup. -/
def aggFind (agg : Agg) (y : List Char) : Option (List Transaction) :=
  match agg with
  | [] => none
  | (k, v) :: rest => if k = y then some v else aggFind rest y

/-- Records stored under year `y` (empty when absent). -/
def aggRecords (agg : Agg) (y : List Char) : List Transaction :=
  (aggFind agg y).getD []

/-- Embeds `self.transactions_by_year[year].extend(transactions)`
(source line 123): append the batch after the existing records of that
year, creating the entry on first use. -/
def aggAppend (agg : Agg) (y : List Char) (ts : List Transaction) : Agg :=
  match agg with
  | [] => [(y, ts)]
  | (k, v) :: rest => if k = y then (k, v ++ ts) :: rest else (k, v) :: aggAppend rest y ts

/-- Embeds the per-document step of `process_all_statements` (source lines
119-126): parse the document; only a truthy result (a nonempty list, in
particular not the `None` of a failed document) is appended under the
document's year label. -/
def processDoc (agg : Agg) (yLabel : List Char) (pages : List (Option (List (List Char)))) : Agg :=
  match parseStatementPages (digitsToNat yLabel) pages with
  | some ts => if ts.isEmpty then agg else aggAppend agg yLabel ts
  | none => agg

/-- Embeds `datetime.strptime(s, '%Y-%m-%d')`: four year digits, a month
of value 1..12 in one or two digits, a day in range for the month, with
literal dashes. -/
def parseIso (s : List Char) : Option (Nat × Nat × Nat) :=
  match s.splitOn '-' with
  | [ys, ms, ds] =>
    if ys.length = 4 && ys.all isDigitCh
        && digits12 ms && decide (1 ≤ digitsToNat ms) && decide (digitsToNat ms ≤ 12)
        && digits12 ds && decide (1 ≤ digitsToNat ds)
        && decide (digitsToNat ds ≤ daysInMonth (digitsToNat ys) (digitsToNat ms)) then
      some (digitsToNat ys, digitsToNat ms, digitsToNat ds)
    else none
  | _ => none

/-- Sort key of the export (source line 146): the parsed transaction date,
encoded monotonically (lexicographically on year, month, day; months are
at most 12 and days at most 31, so the packing is order-faithful).  Every
record built by `parseLine` has a parseable ISO date; the `0` default is
never reached on such records. -/
def transKey (t : Transaction) : Nat :=
  match parseIso t.transDate with
  | some (y, m, d) => y * 512 + m * 32 + d
  | none => 0

/-- Order used by the export's sort. -/
def keyLe (a b : Transaction) : Prop := transKey a ≤ transKey b

instance : DecidableRel keyLe := fun a b => Nat.decLe _ _

instance : IsTotal Transaction keyLe := ⟨fun a b => Nat.le_total _ _⟩

instance : IsTrans Transaction keyLe := ⟨fun _ _ _ => Nat.le_trans⟩

/-- Embeds `sorted(transactions, key=...)` (source lines 145-146):
Python's `sorted` is a stable ascending sort on the key, embedded as
insertion sort (stable sorts on a total preorder agree extensionally). -/
def sortTrans (ts : List Transaction) : List Transaction :=
  ts.insertionSort keyLe

/-- Number of CSV rows written for one year (source lines 144-148): one
header row plus one row per record. -/
def csvRows (ts : List Transaction) : Nat := 1 + (sortTrans ts).length

/-- Embeds `save_transactions_by_year` (source lines 136-156) against a
success oracle `writeOk` for the per-year file write: years are processed
in aggregator order; a successful year contributes its sorted records; the
first failing year stops the loop (`return False`) and contributes
nothing, and no later year is attempted.  Returns the files written by
this call and the boolean result. -/
def save_transactions_by_year (writeOk : List Char → Bool) :
    Agg → List (List Char × List Transaction) × Bool
  | [] => ([], true)
  | (y, ts) :: rest =>
    if writeOk y then
      ((y, sortTrans ts) :: (save_transactions_by_year writeOk rest).1,
       (save_transactions_by_year writeOk rest).2)
    else ([], false)

/-- Declarative counterpart of `groupsTail`: the tail consists of
comma-prefixed three-digit groups followed by a dot and two digits. -/
def GroupsShape (t : List Char) : Prop :=
  ∃ (gs : List (List Char)) (f1 f2 : Char),
    t = (gs.map (fun c => ',' :: c)).flatten ++ '.' :: [f1, f2] ∧
    (∀ c ∈ gs, c.length = 3 ∧ ∀ x ∈ c, isDigitCh x = true) ∧
    isDigitCh f1 = true ∧ isDigitCh f2 = true

/-- Declarative currency-amount shape, written from the specification's
words: a leading `$`, then digits grouped in chunks of at most 3 separated
by commas — i.e. the comma-grouping convention, whose leading chunk has
one to three digits and whose subsequent chunks have exactly three — then
a literal `.` and exactly two digits. -/
def specAmountShape (s : List Char) : Prop :=
  ∃ (g : List Char) (gs : List (List Char)) (f1 f2 : Char),
    s = '$' :: (g ++ (gs.map (fun c => ',' :: c)).flatten ++ '.' :: [f1, f2]) ∧
    1 ≤ g.length ∧ g.length ≤ 3 ∧ (∀ x ∈ g, isDigitCh x = true) ∧
    (∀ c ∈ gs, c.length = 3 ∧ ∀ x ∈ c, isDigitCh x = true) ∧
    isDigitCh f1 = true ∧ isDigitCh f2 = true

lemma groupsTail_sound (t : List Char) (h : groupsTail t = true) : GroupsShape t := by
  induction t using groupsTail.induct with
  | case1 d1 d2 d3 rest ih =>
    simp only [groupsTail, Bool.and_eq_true] at h
    obtain ⟨⟨⟨h1, h2⟩, h3⟩, h4⟩ := h
    obtain ⟨gs, f1, f2, ht, hgs, hf1, hf2⟩ := ih h4
    refine ⟨[d1, d2, d3] :: gs, f1, f2, ?_, ?_, hf1, hf2⟩
    · simp [ht]
    · intro c hc
      simp only [List.mem_cons] at hc
      rcases hc with rfl | hc
      · refine ⟨by simp, ?_⟩
        intro x hx
        simp only [List.mem_cons, List.not_mem_nil, or_false] at hx
        rcases hx with rfl | rfl | rfl
        exacts [h1, h2, h3]
      · exact hgs c hc
  | case2 d1 d2 rest =>
    simp only [groupsTail, Bool.and_eq_true] at h
    obtain ⟨⟨h1, h2⟩, h3⟩ := h
    have : rest = [] := by simpa [List.isEmpty_iff] using h3
    subst this
    exact ⟨[], d1, d2, by simp, by simp, h1, h2⟩
  | case3 t h1 h2 =>
    simp only [groupsTail] at h
    cases h

lemma groupsTail_complete (gs : List (List Char)) (f1 f2 : Char)
    (hgs : ∀ c ∈ gs, c.length = 3 ∧ ∀ x ∈ c, isDigitCh x = true)
    (hf1 : isDigitCh f1 = true) (hf2 : isDigitCh f2 = true) :
    groupsTail ((gs.map (fun c => ',' :: c)).flatten ++ '.' :: [f1, f2]) = true := by
  induction gs with
  | nil => simp [groupsTail, hf1, hf2]
  | cons c gs ih =>
    obtain ⟨hlen, hdig⟩ := hgs c (by simp)
    obtain ⟨a, b, e, rfl⟩ := List.length_eq_three.mp hlen
    simp only [List.map_cons, List.flatten_cons, List.cons_append, List.append_assoc]
    show groupsTail (',' :: a :: b :: e :: _) = true
    simp only [groupsTail, Bool.and_eq_true]
    refine ⟨⟨⟨hdig a (by simp), hdig b (by simp)⟩, hdig e (by simp)⟩, ?_⟩
    exact ih (fun c hc => hgs c (by simp [hc]))

lemma groupsTail_iff (t : List Char) : groupsTail t = true ↔ GroupsShape t := by
  constructor
  · exact groupsTail_sound t
  · rintro ⟨gs, f1, f2, rfl, hgs, hf1, hf2⟩
    exact groupsTail_complete gs f1 f2 hgs hf1 hf2

/-- The group-and-cents tail starts with a comma or a dot, never a digit. -/
lemma groupsShape_takeWhile (gs : List (List Char)) (f1 f2 : Char) :
    ((gs.map (fun c => ',' :: c)).flatten ++ '.' :: [f1, f2]).takeWhile isDigitCh = [] ∧
    ((gs.map (fun c => ',' :: c)).flatten ++ '.' :: [f1, f2]).dropWhile isDigitCh =
      (gs.map (fun c => ',' :: c)).flatten ++ '.' :: [f1, f2] := by
  cases gs with
  | nil => simp [List.takeWhile, List.dropWhile, isDigitCh]
  | cons c gs => simp [List.takeWhile, List.dropWhile, isDigitCh]

lemma amountCore_iff (s : List Char) : amountCore s = true ↔ specAmountShape s := by
  constructor
  · intro h
    cases s with
    | nil => cases h
    | cons c rest =>
      simp only [amountCore, Bool.and_eq_true, decide_eq_true_eq] at h
      obtain ⟨⟨rfl, hlen1, hlen2⟩, htail⟩ := h
      obtain ⟨gs, f1, f2, ht, hgs, hf1, hf2⟩ := groupsTail_sound _ htail
      refine ⟨rest.takeWhile isDigitCh, gs, f1, f2, ?_, hlen1, hlen2, ?_, hgs, hf1, hf2⟩
      · rw [List.append_assoc, ← ht, List.takeWhile_append_dropWhile]
      · intro x hx
        exact List.mem_takeWhile_imp hx
  · rintro ⟨g, gs, f1, f2, rfl, hlen1, hlen2, hg, hgs, hf1, hf2⟩
    have htw : (g ++ (gs.map (fun c => ',' :: c)).flatten ++ '.' :: [f1, f2]).takeWhile isDigitCh
        = g := by
      rw [List.append_assoc, List.takeWhile_append_of_pos hg,
        (groupsShape_takeWhile gs f1 f2).1, List.append_nil]
    have hdw : (g ++ (gs.map (fun c => ',' :: c)).flatten ++ '.' :: [f1, f2]).dropWhile isDigitCh
        = (gs.map (fun c => ',' :: c)).flatten ++ '.' :: [f1, f2] := by
      rw [List.append_assoc, List.dropWhile_append_of_pos hg,
        (groupsShape_takeWhile gs f1 f2).2]
    simp only [amountCore, Bool.and_eq_true, decide_eq_true_eq, htw, hdw]
    exact ⟨⟨trivial, hlen1, hlen2⟩, groupsTail_complete gs f1 f2 hgs hf1 hf2⟩

lemma shape_chars (s : List Char) (hs : specAmountShape s) :
    ∀ x ∈ s, x = '$' ∨ x = ',' ∨ x = '.' ∨ isDigitCh x = true := by
  obtain ⟨g, gs, f1, f2, rfl, hlen1, hlen2, hg, hgs, hf1, hf2⟩ := hs
  intro x hx
  simp only [List.mem_cons, List.mem_append, List.mem_flatten, List.mem_map,
    List.not_mem_nil, or_false] at hx
  rcases hx with rfl | ⟨hx | hx⟩ | hx
  · exact Or.inl rfl
  · exact Or.inr (Or.inr (Or.inr (hg x hx)))
  · obtain ⟨l, ⟨c, hc, rfl⟩, hxl⟩ := hx
    rcases List.mem_cons.mp hxl with rfl | hxc
    · exact Or.inr (Or.inl rfl)
    · exact Or.inr (Or.inr (Or.inr ((hgs c hc).2 x hxc)))
  · rcases hx with rfl | rfl | rfl
    · exact Or.inr (Or.inr (Or.inl rfl))
    · exact Or.inr (Or.inr (Or.inr hf1))
    · exact Or.inr (Or.inr (Or.inr hf2))

lemma is_amount_no_dash (s : List Char) (h : is_amount s = true) : '-' ∉ s := by
  intro hmem
  have hco : ∀ u : List Char, amountCore u = true → '-' ∉ u := by
    intro u hu hm
    rcases shape_chars u ((amountCore_iff u).mp hu) '-' hm with h | h | h | h
    · exact absurd h (by decide)
    · exact absurd h (by decide)
    · exact absurd h (by decide)
    · exact absurd h (by decide)
  simp only [is_amount, reDollar, Bool.or_eq_true, Bool.and_eq_true, beq_iff_eq] at h
  rcases h with h | ⟨hlast, h⟩
  · exact hco s h hmem
  · have hs : s.dropLast ++ ['\n'] = s := List.dropLast_append_getLast? '\n' hlast
    rw [← hs] at hmem
    rcases List.mem_append.mp hmem with hm | hm
    · exact hco _ h hm
    · simp only [List.mem_cons, List.not_mem_nil, or_false] at hm
      exact absurd hm (by decide)

lemma is_amount_eq_core (s : List Char) (hws : ∀ c ∈ s, isPySpace c = false) :
    is_amount s = amountCore s := by
  have : (s.getLast? == some '\n') = false := by
    rw [beq_eq_false_iff_ne]
    intro hl
    have hs : s.dropLast ++ ['\n'] = s := List.dropLast_append_getLast? '\n' hl
    have hm : '\n' ∈ s := by rw [← hs]; simp
    exact absurd (hws '\n' hm) (by decide)
  simp [is_amount, reDollar, this]


lemma digit_keep (x : Char) (h : isDigitCh x = true) : (!(x = '$' || x = ',')) = true := by
  have h1 : x ≠ '$' := by rintro rfl; exact absurd h (by decide)
  have h2 : x ≠ ',' := by rintro rfl; exact absurd h (by decide)
  simp [h1, h2]

lemma parse_amount_of_shape (s : List Char) (hs : specAmountShape s) :
    ∃ n : Nat, parse_amount s = some ((n : ℚ) / 100) := by
  obtain ⟨g, gs, f1, f2, rfl, hlen1, hlen2, hg, hgs, hf1, hf2⟩ := hs
  have hflat : ∀ x ∈ gs.flatten, isDigitCh x = true := by
    intro x hx
    obtain ⟨c, hc, hxc⟩ := List.mem_flatten.mp hx
    exact (hgs c hc).2 x hxc
  have hkeep : ∀ xs : List Char, (∀ x ∈ xs, isDigitCh x = true) →
      xs.filter (fun c => !(c = '$' || c = ',')) = xs :=
    fun xs h => List.filter_eq_self.mpr fun a ha => digit_keep a (h a ha)
  have hfil : ('$' :: (g ++ (gs.map (fun c => ',' :: c)).flatten ++ '.' :: [f1, f2])).filter
      (fun c => !(c = '$' || c = ',')) = (g ++ gs.flatten) ++ '.' :: [f1, f2] := by
    have e2 : ((gs.map (fun c => ',' :: c)).flatten).filter (fun c => !(c = '$' || c = ','))
        = gs.flatten := by
      rw [List.filter_flatten, List.map_map]
      have hmap : gs.map ((List.filter fun c => !(c = '$' || c = ',')) ∘ fun c => ',' :: c)
          = gs.map (fun c => c) := by
        refine List.map_congr_left ?_
        intro c hc
        show (',' :: c).filter (fun c => !(c = '$' || c = ',')) = c
        rw [List.filter_cons_of_neg (by decide), hkeep c ((hgs c hc).2)]
      rw [hmap, List.map_id']
    have e3 : ('.' :: [f1, f2]).filter (fun c => !(c = '$' || c = ',')) = '.' :: [f1, f2] := by
      refine List.filter_eq_self.mpr ?_
      intro a ha
      rcases List.mem_cons.mp ha with rfl | ha
      · decide
      · simp only [List.mem_cons, List.not_mem_nil, or_false] at ha
        rcases ha with rfl | rfl
        · exact digit_keep _ hf1
        · exact digit_keep _ hf2
    rw [List.filter_cons_of_neg (by decide), List.filter_append, List.filter_append,
      hkeep g hg, e2, e3, List.append_assoc]
  rw [parse_amount, hfil]
  have hgne : g ≠ [] := by
    intro h
    rw [h] at hlen1
    exact absurd hlen1 (by decide)
  obtain ⟨x, g2, rfl⟩ := List.exists_cons_of_ne_nil hgne
  have hip : ∀ c ∈ (x :: g2) ++ gs.flatten, isDigitCh c = true := by
    intro c hc
    rcases List.mem_append.mp hc with hc | hc
    · exact hg c hc
    · exact hflat c hc
  have hxd : isDigitCh x = true := hg x (by simp)
  have hx1 : x ≠ '-' := by rintro rfl; exact absurd hxd (by decide)
  have hx2 : x ≠ '+' := by rintro rfl; exact absurd hxd (by decide)
  have hsplit : ((x :: g2) ++ gs.flatten) ++ '.' :: [f1, f2]
      = x :: ((g2 ++ gs.flatten) ++ '.' :: [f1, f2]) := by simp
  rw [hsplit, parseFloat, if_neg hx1, if_neg hx2, ← hsplit]
  have htw : (((x :: g2) ++ gs.flatten) ++ '.' :: [f1, f2]).takeWhile isDigitCh
      = (x :: g2) ++ gs.flatten := by
    rw [List.takeWhile_append_of_pos hip]
    have : ('.' :: [f1, f2]).takeWhile isDigitCh = [] := by
      rw [List.takeWhile_cons_of_neg]
      decide
    rw [this, List.append_nil]
  have hdw : (((x :: g2) ++ gs.flatten) ++ '.' :: [f1, f2]).dropWhile isDigitCh
      = '.' :: [f1, f2] := by
    rw [List.dropWhile_append_of_pos hip, List.dropWhile_cons_of_neg]
    decide
  refine ⟨100 * digitsToNat ((x :: g2) ++ gs.flatten) + digitsToNat [f1, f2], ?_⟩
  simp only [parseUnsigned, hdw, htw]
  have hcond : ([f1, f2].all isDigitCh
      && !(((x :: g2) ++ gs.flatten).isEmpty && ([f1, f2] : List Char).isEmpty)) = true := by
    simp [hf1, hf2]
  rw [hcond]
  simp only [if_true]
  congr 1
  have h2 : (([f1, f2] : List Char).length) = 2 := rfl
  rw [h2]
  push_cast
  field_simp
  ring

lemma parseUnsigned_nonneg (s : List Char) (q : ℚ) (h : parseUnsigned s = some q) : 0 ≤ q := by
  rw [parseUnsigned] at h
  split at h
  · split at h
    · cases h
    · rw [Option.some_inj] at h
      rw [← h]
      positivity
  · split at h
    · rw [Option.some_inj] at h
      rw [← h]
      positivity
    · cases h
  · cases h

lemma parse_amount_nonneg (s : List Char) (q : ℚ) (hd : '-' ∉ s)
    (h : parse_amount s = some q) : 0 ≤ q := by
  rw [parse_amount] at h
  have hd2 : '-' ∉ s.filter (fun c => !(c = '$' || c = ',')) := by
    intro hm
    exact hd (List.mem_of_mem_filter hm)
  revert h
  cases hfe : s.filter (fun c => !(c = '$' || c = ',')) with
  | nil => intro h; exact parseUnsigned_nonneg [] q h
  | cons c r =>
    intro h
    rw [hfe] at hd2
    have hc : c ≠ '-' := by
      rintro rfl
      exact hd2 (by simp)
    rw [parseFloat, if_neg hc] at h
    by_cases hp : c = '+'
    · rw [if_pos hp] at h
      exact parseUnsigned_nonneg r q h
    · rw [if_neg hp] at h
      exact parseUnsigned_nonneg (c :: r) q h

/-- Sample records for the export-ordering example: transaction dates
2024-03-02, 2024-01-10, 2024-01-10, distinguished by description. -/
def recMar2 : Transaction := ⟨str "2024-03-02", str "2024-03-03", str "A", 0⟩

/-- Second sample record (first of the two equal-date ones). -/
def recJan10a : Transaction := ⟨str "2024-01-10", str "2024-01-11", str "B", 0⟩

/-- Third sample record (second of the two equal-date ones). -/
def recJan10b : Transaction := ⟨str "2024-01-10", str "2024-01-11", str "C", 0⟩


/-- Precision of `parse_amount` on classifier-accepted whitespace-free
tokens: the value is an exact whole number of cents. -/
lemma is_amount_decimal (s : List Char) (hws : ∀ c ∈ s, isPySpace c = false)
    (h : is_amount s = true) : ∃ n : Nat, parse_amount s = some ((n : ℚ) / 100) := by
  refine parse_amount_of_shape s ((amountCore_iff s).mp ?_)
  rw [← is_amount_eq_core s hws]
  exact h

/-- Unfolding of the classification conjunction on line 73. -/
lemma classify_iff (parts : List (List Char)) :
    classify parts = true ↔
      4 ≤ parts.length ∧
      is_date (parts.getD 0 [] ++ ' ' :: parts.getD 1 []) = true ∧
      is_amount (parts.getLastD []) = true := by
  simp [classify, Bool.and_eq_true, decide_eq_true_eq, and_assoc]

/-- `parts[4:-1]` computed as drop-then-dropLast equals take-then-drop. -/
lemma slice_eq (l : List (List Char)) (h : 4 ≤ l.length) :
    (l.drop 4).dropLast = (l.take (l.length - 1)).drop 4 := by
  rcases Nat.lt_or_ge l.length 5 with h5 | h5
  · have hlen : l.length = 4 := by omega
    have e1 : l.drop 4 = [] := by
      rw [List.drop_eq_nil_iff]
      omega
    have e2 : (l.take (l.length - 1)).drop 4 = [] := by
      rw [List.drop_eq_nil_iff, List.length_take]
      omega
    rw [e1, e2]
    rfl
  · rw [List.dropLast_eq_take, List.length_drop, List.take_drop]
    have e : 4 + (l.length - 4 - 1) = l.length - 1 := by omega
    rw [e]

/-- Successful reduction of `parseLine`, with the description in the
`parts[4:-1]` slice form. -/
lemma parseLine_eq_some (y : Nat) (parts : List (List Char)) (m1 d1 m2 d2 : Nat) (a : ℚ)
    (hc : classify parts = true)
    (h1 : parseDatePair (parts.getD 0 []) (parts.getD 1 []) y = some (m1, d1))
    (h2 : parseDatePair (parts.getD 2 []) (parts.getD 3 []) y = some (m2, d2))
    (ha : parse_amount (parts.getLastD []) = some a) :
    parseLine y parts = some ⟨isoDate y m1 d1, isoDate y m2 d2,
      joinSpace ((parts.take (parts.length - 1)).drop 4), a⟩ := by
  rw [parseLine, if_pos hc, h1, h2, ha, slice_eq parts ((classify_iff parts).mp hc).1]

/-- Failed date parsing for either pair makes `parseLine` skip the line. -/
lemma parseLine_none_of_date_fail (y : Nat) (parts : List (List Char))
    (h : parseDatePair (parts.getD 0 []) (parts.getD 1 []) y = none ∨
         parseDatePair (parts.getD 2 []) (parts.getD 3 []) y = none) :
    parseLine y parts = none := by
  rw [parseLine]
  split
  · rcases h with h | h
    · rw [h]
    · rw [h]
      cases parseDatePair (parts.getD 0 []) (parts.getD 1 []) y with
      | none => rfl
      | some p => obtain ⟨m, d⟩ := p; rfl
  · rfl

/-- A skipped line contributes nothing and splits `parsePage`. -/
lemma parsePage_skip (y : Nat) (pre : List (List Char)) (l : List Char)
    (post : List (List Char)) (h : parseLine y (splitWs l) = none) :
    parsePage y (pre ++ l :: post) = parsePage y pre ++ parsePage y post := by
  rw [parsePage, List.filterMap_append, List.filterMap_cons, h]
  rfl

/-- A document with a failing page yields `None`. -/
lemma parseStatementPages_none (y : Nat) (pages : List (Option (List (List Char))))
    (h : none ∈ pages) : parseStatementPages y pages = none := by
  induction pages with
  | nil => cases h
  | cons p rest ih =>
    cases p with
    | none => rfl
    | some pg =>
      rcases List.mem_cons.mp h with h1 | h1
      · cases h1
      · rw [parseStatementPages, ih h1]
        rfl

/-- Appending under a year extends exactly that year's records. -/
lemma aggRecords_aggAppend (agg : Agg) (y : List Char) (ts : List Transaction) :
    aggRecords (aggAppend agg y ts) y = aggRecords agg y ++ ts := by
  induction agg with
  | nil => simp [aggAppend, aggRecords, aggFind]
  | cons p rest ih =>
    obtain ⟨k, v⟩ := p
    by_cases hk : k = y
    · subst hk
      simp [aggAppend, aggRecords, aggFind]
    · simp only [aggAppend, if_neg hk, aggRecords, aggFind]
      simp only [aggRecords] at ih
      exact ih

/-- The insertion sort used for the export picks out, for each key value,
exactly the input's subsequence with that key, in input order. -/
lemma sortTrans_filter_key (ts : List Transaction) (k : Nat) :
    (sortTrans ts).filter (fun t => decide (transKey t = k))
      = ts.filter (fun t => decide (transKey t = k)) := by
  have hpair : (ts.filter (fun t => decide (transKey t = k))).Pairwise keyLe := by
    refine List.pairwise_of_forall_mem_list ?_
    intro a ha b hb
    have ha2 := (List.mem_filter.mp ha).2
    have hb2 := (List.mem_filter.mp hb).2
    simp only [decide_eq_true_eq] at ha2 hb2
    unfold keyLe
    rw [ha2, hb2]
  have hsub : List.Sublist (ts.filter (fun t => decide (transKey t = k))) (sortTrans ts) :=
    List.sublist_insertionSort hpair (List.filter_sublist ts)
  have hself : (ts.filter (fun t => decide (transKey t = k))).filter
      (fun t => decide (transKey t = k)) = ts.filter (fun t => decide (transKey t = k)) := by
    refine List.filter_eq_self.mpr ?_
    intro a ha
    exact (List.mem_filter.mp ha).2
  have hsub2 : List.Sublist (ts.filter (fun t => decide (transKey t = k)))
      ((sortTrans ts).filter (fun t => decide (transKey t = k))) := by
    rw [← hself]
    exact hsub.filter _
  have hlen : ((sortTrans ts).filter (fun t => decide (transKey t = k))).length
      = (ts.filter (fun t => decide (transKey t = k))).length :=
    (((List.perm_insertionSort keyLe ts)).filter _).length_eq
  exact (hsub2.eq_of_length hlen.symm).symm

/-- Claim C7: if writing one year's output fails, the exporter aborts
immediately: every year before the failing one has been written (and is
left as written), the failing year and all later years produce no output,
and the run reports failure. -/
theorem claim_C7 (writeOk : List Char → Bool) (pre : Agg) (y : List Char)
    (ts : List Transaction) (post : Agg)
    (hpre : ∀ p ∈ pre, writeOk p.1 = true) (hy : writeOk y = false) :
    save_transactions_by_year writeOk (pre ++ (y, ts) :: post)
      = (pre.map (fun p => (p.1, sortTrans p.2)), false) := by
  induction pre with
  | nil =>
    simp only [List.nil_append, save_transactions_by_year, hy]
    rfl
  | cons p rest ih =>
    obtain ⟨k, v⟩ := p
    have hk : writeOk k = true := hpre (k, v) (by simp)
    have ihr := ih (fun q hq => hpre q (by simp [hq]))
    simp only [List.cons_append, save_transactions_by_year, hk, if_true, List.map_cons,
      List.append_eq]
    rw [ihr]

/-- Claim C7 witness: a concrete failing write aborts after the first
year. -/
theorem claim_C7_witness :
    save_transactions_by_year (fun s => decide (s ≠ str "2024"))
        ([(str "2023", [])] ++ (str "2024", []) :: [(str "2025", [recMar2])])
      = ([(str "2023", sortTrans [])], false) :=
  claim_C7 (fun s => decide (s ≠ str "2024")) [(str "2023", [])] (str "2024") []
    [(str "2025", [recMar2])] (by decide) (by decide)

/-- Claim C8: appending a batch under a year label concatenates it after
that year's existing records (preserving the batch's internal order), and
two batches of 5 and 7 records for year 2023 give an entry of exactly 12
records, exported as 1 header row plus 12 data rows. -/
theorem claim_C8 :
    (∀ (agg : Agg) (y : List Char) (ts : List Transaction),
      aggRecords (aggAppend agg y ts) y = aggRecords agg y ++ ts) ∧
    (∀ ts1 ts2 : List Transaction, ts1.length = 5 → ts2.length = 7 →
      aggRecords (aggAppend (aggAppend [] (str "2023") ts1) (str "2023") ts2) (str "2023")
          = ts1 ++ ts2 ∧
      (aggRecords (aggAppend (aggAppend [] (str "2023") ts1) (str "2023") ts2)
          (str "2023")).length = 12 ∧
      csvRows (aggRecords (aggAppend (aggAppend [] (str "2023") ts1) (str "2023") ts2)
          (str "2023")) = 1 + 12) := by
  refine ⟨aggRecords_aggAppend, ?_⟩
  intro ts1 ts2 h1 h2
  have e : aggRecords (aggAppend (aggAppend [] (str "2023") ts1) (str "2023") ts2) (str "2023")
      = ts1 ++ ts2 := by
    rw [aggRecords_aggAppend, aggRecords_aggAppend]
    simp [aggRecords, aggFind]
  refine ⟨e, ?_, ?_⟩
  · rw [e, List.length_append, h1, h2]
  · rw [e, csvRows, sortTrans, List.length_insertionSort, List.length_append, h1, h2]

/-- Claim C8 witness: two concrete batches of 5 and 7 records. -/
theorem claim_C8_witness :
    aggRecords (aggAppend (aggAppend [] (str "2023") (List.replicate 5 recMar2)) (str "2023")
        (List.replicate 7 recJan10a)) (str "2023")
      = List.replicate 5 recMar2 ++ List.replicate 7 recJan10a ∧
    (aggRecords (aggAppend (aggAppend [] (str "2023") (List.replicate 5 recMar2)) (str "2023")
        (List.replicate 7 recJan10a)) (str "2023")).length = 12 ∧
    csvRows (aggRecords (aggAppend (aggAppend [] (str "2023") (List.replicate 5 recMar2))
        (str "2023") (List.replicate 7 recJan10a)) (str "2023")) = 1 + 12 :=
  claim_C8.2 (List.replicate 5 recMar2) (List.replicate 7 recJan10a) (by simp) (by simp)

/-- Claim C9: a document whose text extraction fails partway is atomic
with respect to the aggregator: `parse_statement` returns `None`, and the
aggregator after processing the failed document equals the aggregator
before it, even when earlier pages held parseable lines. -/
theorem claim_C9 :
    (∀ (y : Nat) (pages : List (Option (List (List Char)))), none ∈ pages →
      parseStatementPages y pages = none) ∧
    (∀ (agg : Agg) (yLabel : List Char) (pages : List (Option (List (List Char)))),
      none ∈ pages → processDoc agg yLabel pages = agg) := by
  refine ⟨parseStatementPages_none, ?_⟩
  intro agg yLabel pages h
  rw [processDoc, parseStatementPages_none _ pages h]

/-- Claim C9 witness: a document whose first page parses a transaction
but whose second page fails leaves a nonempty aggregator untouched. -/
theorem claim_C9_witness :
    processDoc [(str "2023", [recMar2])] (str "2024")
        [some [str "Jan 5 Jan 6 COFFEE $4.50"], none]
      = [(str "2023", [recMar2])] :=
  claim_C9.2 [(str "2023", [recMar2])] (str "2024")
    [some [str "Jan 5 Jan 6 COFFEE $4.50"], none] (by decide)


/-- Claim C1: a whitespace-tokenized line is classified as a transaction
line exactly when it has at least 4 tokens, tokens 0 and 1 joined by a
single space match the date pattern, and the final token matches the
amount pattern; classification depends only on the token count, tokens 0
and 1 and the last token (tokens 2 and 3 and middle tokens are never
inspected), and any line with fewer than 4 tokens is rejected regardless
of content. -/
theorem claim_C1 :
    (∀ line : List Char,
      classify (splitWs line) = true ↔
        4 ≤ (splitWs line).length ∧
        is_date ((splitWs line).getD 0 [] ++ ' ' :: (splitWs line).getD 1 []) = true ∧
        is_amount ((splitWs line).getLastD []) = true) ∧
    (∀ p q : List (List Char), p.length = q.length →
      p.getD 0 [] = q.getD 0 [] → p.getD 1 [] = q.getD 1 [] →
      p.getLastD [] = q.getLastD [] → classify p = classify q) ∧
    (∀ p : List (List Char), p.length < 4 → classify p = false) := by
  refine ⟨fun line => classify_iff _, ?_, ?_⟩
  · intro p q h0 h1 h2 h3
    simp only [classify, h0, h1, h2, h3]
  · intro p h
    have h4 : decide (4 ≤ p.length) = false := decide_eq_false (by omega)
    simp only [classify, h4, Bool.false_and]

/-- Claim C1 witness: a line with arbitrary middle tokens is classified,
and a 3-token line is not. -/
theorem claim_C1_witness :
    classify (splitWs (str "Jan 5 XX YY $4.50")) = true ∧
    classify (splitWs (str "Jan 5 $4.50")) = false :=
  ⟨(claim_C1.1 (str "Jan 5 XX YY $4.50")).mpr ⟨by decide, by decide, by decide⟩,
   claim_C1.2.2 (splitWs (str "Jan 5 $4.50")) (by decide)⟩

/-- Claim C5: on a classified line, failure of `strptime` on either date
pair (day out of range for the month, or unrecognized month abbreviation)
rejects exactly that line — no record is produced — and the remaining
lines of the page are processed as if the line were absent.  The failure
is caught (`ValueError` handler at lines 92-95) rather than propagated;
in the embedding `parseLine` is total and returns `none` there. -/
theorem claim_C5 :
    (∀ (y : Nat) (parts : List (List Char)), classify parts = true →
      (parseDatePair (parts.getD 0 []) (parts.getD 1 []) y = none ∨
       parseDatePair (parts.getD 2 []) (parts.getD 3 []) y = none) →
      parseLine y parts = none) ∧
    (∀ (y : Nat) (pre : List (List Char)) (l : List Char) (post : List (List Char)),
      parseLine y (splitWs l) = none →
      parsePage y (pre ++ l :: post) = parsePage y pre ++ parsePage y post) := by
  refine ⟨?_, ?_⟩
  · intro y parts hcl h
    exact parseLine_none_of_date_fail y parts h
  · intro y pre l post h
    exact parsePage_skip y pre l post h

/-- Claim C5 witness: the classified line with post date "Feb 30" is
skipped and its neighbours still parse. -/
theorem claim_C5_witness :
    parseLine 2024 (splitWs (str "Jan 5 Feb 30 LUNCH $9.99")) = none ∧
    parsePage 2024 ([str "Jan 5 Jan 6 A $1.00"] ++ str "Jan 5 Feb 30 LUNCH $9.99"
        :: [str "Jan 7 Jan 8 B $2.00"])
      = parsePage 2024 [str "Jan 5 Jan 6 A $1.00"]
        ++ parsePage 2024 [str "Jan 7 Jan 8 B $2.00"] := by
  have h1 : parseLine 2024 (splitWs (str "Jan 5 Feb 30 LUNCH $9.99")) = none :=
    claim_C5.1 2024 (splitWs (str "Jan 5 Feb 30 LUNCH $9.99")) (by decide)
      (Or.inr (by decide))
  exact ⟨h1, claim_C5.2 2024 [str "Jan 5 Jan 6 A $1.00"] (str "Jan 5 Feb 30 LUNCH $9.99")
    [str "Jan 7 Jan 8 B $2.00"] h1⟩

/-- Claim C6: the exporter emits each year's records sorted ascending by
the parsed transaction-date value, with a stable sort: the output is a
permutation of the input, it is sorted under the date key, records of each
fixed date keep their input order, and the concrete example
[2024-03-02, 2024-01-10, 2024-01-10] sorts to
[2024-01-10, 2024-01-10, 2024-03-02] with the equal-date pair in original
order. -/
theorem claim_C6 :
    (∀ ts : List Transaction, (sortTrans ts).Perm ts) ∧
    (∀ ts : List Transaction, (sortTrans ts).Pairwise keyLe) ∧
    (∀ (ts : List Transaction) (k : Nat),
      (sortTrans ts).filter (fun t => decide (transKey t = k))
        = ts.filter (fun t => decide (transKey t = k))) ∧
    sortTrans [recMar2, recJan10a, recJan10b] = [recJan10a, recJan10b, recMar2] := by
  refine ⟨fun ts => List.perm_insertionSort keyLe ts,
    fun ts => List.sorted_insertionSort keyLe ts, sortTrans_filter_key, ?_⟩
  decide


/-- A successfully parsed line carries a nonnegative amount: its amount
token passed `is_amount`, which admits no sign. -/
lemma parseLine_amount_nonneg (y : Nat) (parts : List (List Char)) (t : Transaction)
    (h : parseLine y parts = some t) : 0 ≤ t.amount := by
  by_cases hc : classify parts = true
  · cases hpd1 : parseDatePair (parts.getD 0 []) (parts.getD 1 []) y with
    | none =>
      rw [parseLine, if_pos hc, hpd1] at h
      cases h
    | some p1 =>
      obtain ⟨m1, d1⟩ := p1
      cases hpd2 : parseDatePair (parts.getD 2 []) (parts.getD 3 []) y with
      | none =>
        rw [parseLine, if_pos hc, hpd1, hpd2] at h
        cases h
      | some p2 =>
        obtain ⟨m2, d2⟩ := p2
        cases ha : parse_amount (parts.getLastD []) with
        | none =>
          rw [parseLine, if_pos hc, hpd1, hpd2, ha] at h
          cases h
        | some a =>
          rw [parseLine, if_pos hc, hpd1, hpd2, ha] at h
          cases h
          have hia : is_amount (parts.getLastD []) = true := ((classify_iff parts).mp hc).2.2
          exact parse_amount_nonneg _ a (is_amount_no_dash _ hia) ha
  · rw [parseLine, if_neg hc] at h
    cases h

/-- Every record produced from a page has a nonnegative amount. -/
lemma parsePage_amount_nonneg (y : Nat) (lines : List (List Char)) (t : Transaction)
    (h : t ∈ parsePage y lines) : 0 ≤ t.amount := by
  obtain ⟨l, hl, he⟩ := List.mem_filterMap.mp h
  exact parseLine_amount_nonneg y (splitWs l) t he

/-- Every record produced from a whole document has a nonnegative
amount. -/
lemma parseStatementPages_nonneg (y : Nat) (pages : List (Option (List (List Char))))
    (ts : List Transaction) (h : parseStatementPages y pages = some ts) :
    ∀ t ∈ ts, 0 ≤ t.amount := by
  induction pages generalizing ts with
  | nil =>
    simp only [parseStatementPages, Option.some_inj] at h
    subst h
    intro t ht
    cases ht
  | cons p rest ih =>
    cases p with
    | none =>
      simp only [parseStatementPages] at h
      exact Option.noConfusion h
    | some pg =>
      simp only [parseStatementPages] at h
      rcases Option.map_eq_some'.mp h with ⟨ts2, hrest, rfl⟩
      intro t ht
      rcases List.mem_append.mp ht with ht | ht
      · exact parsePage_amount_nonneg y pg t ht
      · exact ih ts2 hrest t ht

/-- `aggAppend` preserves the all-amounts-nonnegative invariant. -/
lemma aggAppend_nonneg (agg : Agg) (y : List Char) (ts : List Transaction)
    (hagg : ∀ p ∈ agg, ∀ t ∈ p.2, 0 ≤ t.amount) (hts : ∀ t ∈ ts, 0 ≤ t.amount) :
    ∀ p ∈ aggAppend agg y ts, ∀ t ∈ p.2, 0 ≤ t.amount := by
  induction agg with
  | nil =>
    intro p hp
    simp only [aggAppend, List.mem_singleton] at hp
    subst hp
    exact hts
  | cons q rest ih =>
    obtain ⟨k, v⟩ := q
    by_cases hk : k = y
    · subst hk
      simp only [aggAppend, if_pos rfl]
      intro p hp
      rcases List.mem_cons.mp hp with rfl | hp
      · intro t ht
        rcases List.mem_append.mp ht with ht | ht
        · exact hagg (k, v) (by simp) t ht
        · exact hts t ht
      · exact hagg p (by simp [hp])
    · simp only [aggAppend, if_neg hk]
      intro p hp
      rcases List.mem_cons.mp hp with rfl | hp
      · exact hagg (k, v) (by simp)
      · exact ih (fun q hq => hagg q (by simp [hq])) p hp

/-- The worked example line of the specification, fully evaluated. -/
lemma parseLine_example :
    parseLine 2024 (splitWs (str "Jan 5 Jan 6 COFFEE SHOP $4.50")) =
      some ⟨str "2024-01-05", str "2024-01-06", str "COFFEE SHOP", (4.50 : ℚ)⟩ := by
  have egl : (splitWs (str "Jan 5 Jan 6 COFFEE SHOP $4.50")).getLastD [] = str "$4.50" := by
    decide
  have ha : parse_amount ((splitWs (str "Jan 5 Jan 6 COFFEE SHOP $4.50")).getLastD [])
      = some (4.50 : ℚ) := by
    rw [egl]
    simp +decide [parse_amount, parseFloat, parseUnsigned, str, digitsToNat,
      List.takeWhile, List.dropWhile, isDigitCh]
    norm_num
  have h := parseLine_eq_some 2024 (splitWs (str "Jan 5 Jan 6 COFFEE SHOP $4.50"))
    1 5 1 6 (4.50 : ℚ) (by decide) (by decide) (by decide) ha
  rw [h, Option.some_inj, Transaction.mk.injEq]
  exact ⟨by decide, by decide, by decide, rfl⟩

/-- Claim C2: the currency-amount check accepts exactly the strings of a
leading dollar sign followed by comma-grouped digits (a leading chunk of
one to three digits, then chunks of exactly three) and a dot with two
decimal digits; no sign is recognised, so every token containing a minus
sign is rejected.  (The first part is stated for whitespace-free strings,
the only ones that can occur as tokens of a split line; on strings with a
trailing newline Python's `$` anchor would also match.) -/
theorem claim_C2 :
    (∀ s : List Char, (∀ c ∈ s, isPySpace c = false) →
      (is_amount s = true ↔ specAmountShape s)) ∧
    (∀ s : List Char, '-' ∈ s → is_amount s = false) := by
  refine ⟨?_, ?_⟩
  · intro s hws
    rw [is_amount_eq_core s hws]
    exact amountCore_iff s
  · intro s hm
    cases h : is_amount s with
    | false => rfl
    | true => exact absurd hm (is_amount_no_dash s h)

/-- Claim C2 witness: the characterization at a grouped amount, and
rejection of a signed token. -/
theorem claim_C2_witness :
    (is_amount (str "$1,234.56") = true ↔ specAmountShape (str "$1,234.56")) ∧
    is_amount (str "-$1.00") = false :=
  ⟨claim_C2.1 (str "$1,234.56") (by decide), claim_C2.2 (str "-$1.00") (by decide)⟩

/-- Claim C4: `parse_amount` strips the dollar sign and every comma and
parses the remainder as a decimal number; the two examples evaluate as
stated, and every classifier-accepted token parses to an exact whole
number of cents (two-digit precision, no rounding) — stated at the exact
decimal (rational) semantics of the embedding. -/
theorem claim_C4 :
    (∀ s : List Char,
      parse_amount s = parseFloat (s.filter (fun c => !(c = '$' || c = ',')))) ∧
    parse_amount (str "$1,234.56") = some (1234.56 : ℚ) ∧
    parse_amount (str "$0.00") = some 0 ∧
    (∀ s : List Char, (∀ c ∈ s, isPySpace c = false) → is_amount s = true →
      ∃ n : Nat, parse_amount s = some ((n : ℚ) / 100)) := by
  refine ⟨fun s => rfl, ?_, ?_, is_amount_decimal⟩
  · simp +decide [parse_amount, parseFloat, parseUnsigned, str, digitsToNat,
      List.takeWhile, List.dropWhile, isDigitCh]
    norm_num
  · simp +decide [parse_amount, parseFloat, parseUnsigned, str, digitsToNat,
      List.takeWhile, List.dropWhile, isDigitCh]

/-- Claim C4 witness: a further concrete token parses to a whole number of
cents. -/
theorem claim_C4_witness :
    ∃ n : Nat, parse_amount (str "$9.99") = some ((n : ℚ) / 100) :=
  claim_C4.2.2.2 (str "$9.99") (by decide) (by decide)

/-- Claim C10: classifier-accepted amount tokens contain no minus sign;
every record built by the extractor has a nonnegative amount; and
processing any document preserves the invariant that every record in the
aggregator has a nonnegative amount. -/
theorem claim_C10 :
    (∀ s : List Char, is_amount s = true → '-' ∉ s) ∧
    (∀ (y : Nat) (parts : List (List Char)) (t : Transaction),
      parseLine y parts = some t → 0 ≤ t.amount) ∧
    (∀ (agg : Agg) (yLabel : List Char) (pages : List (Option (List (List Char)))),
      (∀ p ∈ agg, ∀ t ∈ p.2, 0 ≤ t.amount) →
      ∀ p ∈ processDoc agg yLabel pages, ∀ t ∈ p.2, 0 ≤ t.amount) := by
  refine ⟨is_amount_no_dash, parseLine_amount_nonneg, ?_⟩
  intro agg yLabel pages hagg
  cases hp : parseStatementPages (digitsToNat yLabel) pages with
  | none =>
    rw [processDoc, hp]
    exact hagg
  | some ts =>
    rw [processDoc, hp]
    show ∀ p ∈ (if ts.isEmpty = true then agg else aggAppend agg yLabel ts),
      ∀ t ∈ p.2, 0 ≤ t.amount
    by_cases he : ts.isEmpty = true
    · rw [if_pos he]
      exact hagg
    · rw [if_neg he]
      exact aggAppend_nonneg agg yLabel ts hagg
        (parseStatementPages_nonneg (digitsToNat yLabel) pages ts hp)

/-- Claim C10 witness: the example amount token has no sign, and the
example record's amount is nonnegative. -/
theorem claim_C10_witness :
    '-' ∉ str "$1.00" ∧
    (0 : ℚ) ≤ (Transaction.mk (str "2024-01-05") (str "2024-01-06")
      (str "COFFEE SHOP") (4.50 : ℚ)).amount :=
  ⟨claim_C10.1 (str "$1.00") (by decide),
   claim_C10.2.1 2024 (splitWs (str "Jan 5 Jan 6 COFFEE SHOP $4.50")) _ parseLine_example⟩

/-- Claim C3: on a classified line whose two date pairs and amount token
parse, the extractor emits the record with the transaction date from
tokens 0-1, the post date from tokens 2-3, both in ISO form with the
supplied year, the description `parts[4:-1]` joined by single spaces, and
the parsed amount; the specification's worked example evaluates exactly as
stated. -/
theorem claim_C3 :
    (∀ (y : Nat) (parts : List (List Char)) (m1 d1 m2 d2 : Nat) (a : ℚ),
      classify parts = true →
      parseDatePair (parts.getD 0 []) (parts.getD 1 []) y = some (m1, d1) →
      parseDatePair (parts.getD 2 []) (parts.getD 3 []) y = some (m2, d2) →
      parse_amount (parts.getLastD []) = some a →
      parseLine y parts = some ⟨isoDate y m1 d1, isoDate y m2 d2,
        joinSpace ((parts.take (parts.length - 1)).drop 4), a⟩) ∧
    parseLine 2024 (splitWs (str "Jan 5 Jan 6 COFFEE SHOP $4.50")) =
      some ⟨str "2024-01-05", str "2024-01-06", str "COFFEE SHOP", (4.50 : ℚ)⟩ :=
  ⟨parseLine_eq_some, parseLine_example⟩

/-- Claim C3 witness: a date-date-amount line with no middle tokens still
extracts, with an empty description. -/
theorem claim_C3_witness :
    parseLine 2024 (splitWs (str "Feb 7 Feb 8 $1.00")) =
      some ⟨isoDate 2024 2 7, isoDate 2024 2 8,
        joinSpace (((splitWs (str "Feb 7 Feb 8 $1.00")).take
          ((splitWs (str "Feb 7 Feb 8 $1.00")).length - 1)).drop 4), 1⟩ :=
  claim_C3.1 2024 (splitWs (str "Feb 7 Feb 8 $1.00")) 2 7 2 8 1 (by decide) (by decide)
    (by decide)
    (by
      have e : (splitWs (str "Feb 7 Feb 8 $1.00")).getLastD [] = str "$1.00" := by decide
      rw [e]
      simp +decide [parse_amount, parseFloat, parseUnsigned, str, digitsToNat,
        List.takeWhile, List.dropWhile, isDigitCh])

end CCData
